import Mathlib

/-!
Shallow embedding of the BMP codec from `src/ImgLib/bmp_image.cpp`.

The in-memory image (`img_lib::Image`) is a grid of RGB pixels; the codec
serializes it to the 24-bit uncompressed bottom-up BMP byte layout
(`SaveBMP`) and parses such a byte layout back (`LoadBMP`).  Files are
modelled as lists of bytes (`List Nat`, every element below 256); the
"cannot open" case is modelled by an `Option (List Nat)` source, and the
empty-image failure sentinel of the C++ code by `Option Image` results.
-/

namespace ImgLib

/-- One RGB pixel of the in-memory image (channel values are bytes). -/
structure Pixel where
  r : Nat
  g : Nat
  b : Nat
  deriving DecidableEq, Repr

instance : Inhabited Pixel := ⟨⟨0, 0, 0⟩⟩

/-- `Color::Black()` of the image library: all channels zero. -/
def blackPixel : Pixel := ⟨0, 0, 0⟩

/-- The in-memory image: `width`, `height`, and the pixel rows (top row first),
mirroring `img_lib::Image` with its `GetWidth`, `GetHeight`, `GetLine`. -/
structure Image where
  width : Nat
  height : Nat
  rows : List (List Pixel)
  deriving DecidableEq, Repr

/-- Pixel at column `x` of row `y` (row 0 is the top row), defaulting like
an out-of-range access would be meaningless in C++; claims only use it in
range. -/
def Image.pixelAt (img : Image) (x y : Nat) : Pixel :=
  (img.rows.getD y []).getD x default

/-- A pixel whose channels fit in a byte, as `std::byte` channels always do. -/
def Pixel.Valid (p : Pixel) : Prop := p.r < 256 ∧ p.g < 256 ∧ p.b < 256

instance (p : Pixel) : Decidable p.Valid :=
  inferInstanceAs (Decidable (_ ∧ _ ∧ _))

/-- The structural invariant of `img_lib::Image`: `height` rows, each of
`width` pixels, all channels bytes. -/
def Image.WellFormed (img : Image) : Prop :=
  img.rows.length = img.height ∧
    ∀ row ∈ img.rows, row.length = img.width ∧ ∀ p ∈ row, p.Valid

instance (img : Image) : Decidable img.WellFormed :=
  inferInstanceAs (Decidable (_ ∧ _))

/-- `GetBMPStride` from `bmp_image.cpp`: the byte length of one encoded row,
`3` bytes per pixel rounded up to a multiple of `4`. -/
def GetBMPStride (w : Nat) : Nat :=
  4 * ((w * 3 + 3) / 4)

/-- Little-endian serialization of a 16-bit field. -/
def le16 (n : Nat) : List Nat := [n % 256, n / 256 % 256]

/-- Little-endian serialization of a 32-bit field. -/
def le32 (n : Nat) : List Nat :=
  [n % 256, n / 256 % 256, n / 65536 % 256, n / 16777216 % 256]

/-- The 54 header bytes `SaveBMP` writes: the packed `BitmapFileHeader`
(14 bytes) followed by the packed `BitmapInfoHeader` (40 bytes), fields in
declaration order, little-endian, with the constants of `bmp_image.cpp`
(`bfType = 0x4D42`, `bfOffBits = 54`, `biSize = 40`, `biPlanes = 1`,
`biBitCount = 24`, `biCompression = 0`, resolutions `11811`,
`biClrImportant = 0x1000000`) and the computed fields `bfSize`, `biWidth`,
`biHeight`, `biSizeImage`. -/
def bmpHeaders (width height : Nat) : List Nat :=
  le16 0x4D42 ++
  le32 (14 + 40 + GetBMPStride width * height) ++
  le32 0 ++
  le32 54 ++
  le32 40 ++
  le32 width ++
  le32 height ++
  le16 1 ++
  le16 24 ++
  le32 0 ++
  le32 (GetBMPStride width * height) ++
  le32 11811 ++
  le32 11811 ++
  le32 0 ++
  le32 0x1000000

/-- One encoded pixel row of `SaveBMP`: a zero-initialized buffer of
`stride` bytes in which, for each `x < width`, positions `3*x`, `3*x+1`,
`3*x+2` hold the pixel's blue, green and red bytes (the `uint8_t` casts
are the `% 256`).  Position `i` is written exactly when `i < 3 * width`,
with `x = i / 3` and channel `i % 3`. -/
def rowBytes (stride width : Nat) (line : List Pixel) : List Nat :=
  (List.range stride).map fun i =>
    if i < 3 * width then
      match i % 3 with
      | 0 => (line.getD (i / 3) default).b % 256
      | 1 => (line.getD (i / 3) default).g % 256
      | _ => (line.getD (i / 3) default).r % 256
    else 0

/-- `SaveBMP` from `bmp_image.cpp` as a byte-list producer: the two headers,
then the pixel rows from `y = height - 1` down to `y = 0`. -/
def SaveBMP (img : Image) : List Nat :=
  bmpHeaders img.width img.height ++
    ((List.range img.height).reverse.map fun y =>
      rowBytes (GetBMPStride img.width) img.width (img.rows.getD y [])).flatten

/-- The boolean result of `SaveBMP` against a sink that accepts at most
`cap` bytes: `out.good()` holds exactly when every emitted byte was
accepted. -/
def saveBMPGood (cap : Nat) (img : Image) : Bool :=
  (SaveBMP img).length ≤ cap

/-- Byte `i` of a byte source (reads past the end never occur on the
paths the codec takes; `0` is a dummy default). -/
def byteAt (bs : List Nat) (i : Nat) : Nat := bs.getD i 0

/-- Little-endian 16-bit read at `off`, as the packed-struct `read` does. -/
def readU16 (bs : List Nat) (off : Nat) : Nat :=
  byteAt bs off + 256 * byteAt bs (off + 1)

/-- Little-endian 32-bit read at `off`, as the packed-struct `read` does. -/
def readU32 (bs : List Nat) (off : Nat) : Nat :=
  byteAt bs off + 256 * byteAt bs (off + 1) + 65536 * byteAt bs (off + 2) +
    16777216 * byteAt bs (off + 3)

/-- Reinterpret a 32-bit unsigned value as the signed `int32_t` it stores
(two's complement). -/
def toInt32 (n : Nat) : Int :=
  if n < 2 ^ 31 then (n : Int) else (n : Int) - 2 ^ 32

/-- One `in.read(row.data(), stride)` of `LoadBMP` at stream position
`pos`: succeeds with the `stride` bytes there iff that many remain
(`gcount() == stride`). -/
def readRow (bs : List Nat) (pos stride : Nat) : Option (List Nat) :=
  if pos + stride ≤ bs.length then
    some ((List.range stride).map fun j => byteAt bs (pos + j))
  else none

/-- The row-reading loop of `LoadBMP`: `n` consecutive `stride`-byte reads
starting at `pos`; any short read aborts the whole decode. -/
def readRows (bs : List Nat) (pos stride : Nat) : Nat → Option (List (List Nat))
  | 0 => some []
  | n + 1 =>
    match readRow bs pos stride with
    | none => none
    | some row =>
      match readRows bs (pos + stride) stride n with
      | none => none
      | some rest => some (row :: rest)

/-- Conversion of one file row into one image row of `LoadBMP`: the image
was built `Image(stride / 3, height, Color::Black())`, and for `x < width`
the loop overwrites pixel `x` with bytes `3*x` (blue), `3*x+1` (green),
`3*x+2` (red) of the file row; columns at `width ≤ x < stride / 3` keep
`Color::Black()`. -/
def decodeRow (fileRow : List Nat) (width cols : Nat) : List Pixel :=
  (List.range cols).map fun x =>
    if x < width then
      ⟨fileRow.getD (3 * x + 2) 0, fileRow.getD (3 * x + 1) 0, fileRow.getD (3 * x) 0⟩
    else blackPixel

/-- `LoadBMP` from `bmp_image.cpp` on an already-opened byte source:
reads the 14-byte file header, then the 40-byte info header (failing on a
short read of either), validates the fields, seeks to `bfOffBits` (the
validated value 54), reads `height` rows of `stride` bytes bottom-up, and
builds the `Image(stride / 3, height, Color::Black())` whose line `y`
comes from the `(height - 1 - y)`-th row read.  `none` is the empty-image
failure sentinel. -/
def LoadBMP (bs : List Nat) : Option Image :=
  if bs.length < 14 then none
  else if bs.length < 54 then none
  else if readU16 bs 0 ≠ 0x4D42 ∨ readU32 bs 10 ≠ 54 ∨
      readU32 bs 14 ≠ 40 ∨ readU16 bs 26 ≠ 1 ∨ readU16 bs 28 ≠ 24 ∨
      readU32 bs 30 ≠ 0 ∨ toInt32 (readU32 bs 18) ≤ 0 ∨
      toInt32 (readU32 bs 22) ≤ 0 then none
  else
    match readRows bs 54 (GetBMPStride (toInt32 (readU32 bs 18)).toNat)
        (toInt32 (readU32 bs 22)).toNat with
    | none => none
    | some fileRows =>
      some ⟨GetBMPStride (toInt32 (readU32 bs 18)).toNat / 3,
        (toInt32 (readU32 bs 22)).toNat,
        fileRows.reverse.map fun fr =>
          decodeRow fr (toInt32 (readU32 bs 18)).toNat
            (GetBMPStride (toInt32 (readU32 bs 18)).toNat / 3)⟩

/-- `LoadBMP` on a file path: a source that cannot be opened (`!in`) is
`none` and yields the sentinel at once. -/
def LoadBMPFile (src : Option (List Nat)) : Option Image :=
  src.bind LoadBMP

/-! ### Arithmetic facts about the stride -/

theorem stride_eq (w : Nat) : GetBMPStride w = 4 * ((3 * w + 3) / 4) := by
  unfold GetBMPStride
  rw [Nat.mul_comm w 3]

theorem stride_mod4 (w : Nat) : GetBMPStride w % 4 = 0 := by
  unfold GetBMPStride
  omega

theorem three_mul_le_stride (w : Nat) : 3 * w ≤ GetBMPStride w := by
  unfold GetBMPStride
  omega

theorem stride_sub_lt (w : Nat) : GetBMPStride w - 3 * w < 4 := by
  unfold GetBMPStride
  omega

/-- The decoder's column count `stride / 3` exceeds the pixel width by one
exactly for widths congruent to `3` modulo `4`. -/
theorem stride_div_three (w : Nat) :
    GetBMPStride w / 3 = w + (if w % 4 = 3 then 1 else 0) := by
  obtain ⟨q, e, he, rfl⟩ : ∃ q e, e < 4 ∧ w = 4 * q + e :=
    ⟨w / 4, w % 4, by omega, by omega⟩
  unfold GetBMPStride
  interval_cases e
  · rw [show (4 * q + 0) * 3 + 3 = 12 * q + 3 by ring,
      show (12 * q + 3) / 4 = 3 * q by omega, if_neg (by omega)]
    omega
  · rw [show (4 * q + 1) * 3 + 3 = 12 * q + 6 by ring,
      show (12 * q + 6) / 4 = 3 * q + 1 by omega, if_neg (by omega)]
    omega
  · rw [show (4 * q + 2) * 3 + 3 = 12 * q + 9 by ring,
      show (12 * q + 9) / 4 = 3 * q + 2 by omega, if_neg (by omega)]
    omega
  · rw [show (4 * q + 3) * 3 + 3 = 12 * q + 12 by ring,
      show (12 * q + 12) / 4 = 3 * q + 3 by omega, if_pos (by omega)]
    omega

/-! ### Generic list-indexing lemmas -/

theorem getD_append_left {α} (l l' : List α) (d : α) (n : Nat) (h : n < l.length) :
    (l ++ l').getD n d = l.getD n d :=
  List.getD_append _ _ _ _ h

theorem getD_append_skip {α} (l l' : List α) (d : α) (n : Nat) (h : l.length ≤ n) :
    (l ++ l').getD n d = l'.getD (n - l.length) d :=
  List.getD_append_right _ _ _ _ h

theorem getD_map_range {α} (f : Nat → α) (d : α) {n i : Nat} (h : i < n) :
    ((List.range n).map f).getD i d = f i := by
  simp [List.getD, List.getElem?_map, List.getElem?_range, h]

theorem getD_reverse {α} (l : List α) (d : α) {i : Nat} (h : i < l.length) :
    l.reverse.getD i d = l.getD (l.length - 1 - i) d := by
  have h2 : l.length - 1 - i < l.length := by omega
  simp [List.getD, List.getElem?_reverse, h, List.getElem?_eq_getElem, h2]

theorem getD_map_of_lt {α β} (f : α → β) (l : List α) (d : β) (d₀ : α) {i : Nat}
    (h : i < l.length) : (l.map f).getD i d = f (l.getD i d₀) := by
  simp [List.getD, List.getElem?_map, List.getElem?_eq_getElem, h]

theorem flatten_length_const {α} (L : List (List α)) (s : Nat)
    (h : ∀ l ∈ L, l.length = s) : L.flatten.length = L.length * s := by
  induction L with
  | nil => simp
  | cons a t ih =>
    have ha : a.length = s := h a (List.mem_cons_self a t)
    have ht : t.flatten.length = t.length * s := ih fun l hl => h l (List.mem_cons_of_mem _ hl)
    simp [ha, ht]
    ring

/-- Indexing into the concatenation of equal-length chunks. -/
theorem getD_flatten_const {α} (d : α) {L : List (List α)} {s : Nat}
    (h : ∀ l ∈ L, l.length = s) :
    ∀ {r j : Nat}, r < L.length → j < s →
      L.flatten.getD (r * s + j) d = (L.getD r []).getD j d := by
  induction L with
  | nil => intro r j hr _; simp at hr
  | cons a t ih =>
    intro r j hr hj
    have ha : a.length = s := h a (List.mem_cons_self a t)
    match r with
    | 0 =>
      simp only [List.flatten_cons, Nat.zero_mul, Nat.zero_add]
      rw [getD_append_left _ _ _ _ (by omega), List.getD_cons_zero]
    | r + 1 =>
      have hskip : a.length ≤ (r + 1) * s + j := by
        have : s ≤ (r + 1) * s + j := by
          calc s = 1 * s := by ring
          _ ≤ (r + 1) * s + j := by
            have : 1 * s ≤ (r + 1) * s := Nat.mul_le_mul_right s (by omega)
            omega
        omega
      simp only [List.flatten_cons]
      rw [getD_append_skip _ _ _ _ hskip, ha,
        show (r + 1) * s + j - s = r * s + j by ring_nf; omega,
        List.getD_cons_succ]
      exact ih (fun l hl => h l (List.mem_cons_of_mem _ hl)) (by simpa using hr) hj

/-! ### Lengths of the emitted pieces -/

theorem length_bmpHeaders (w h : Nat) : (bmpHeaders w h).length = 54 := by
  simp [bmpHeaders, le16, le32]

theorem length_rowBytes (s w : Nat) (line : List Pixel) :
    (rowBytes s w line).length = s := by
  simp [rowBytes]

theorem length_SaveBMP (img : Image) :
    (SaveBMP img).length = 54 + GetBMPStride img.width * img.height := by
  unfold SaveBMP
  rw [List.length_append, length_bmpHeaders,
    flatten_length_const _ (GetBMPStride img.width) ?hc]
  · simp [Nat.mul_comm]
  · intro l hl
    simp only [List.mem_map] at hl
    obtain ⟨y, _, rfl⟩ := hl
    exact length_rowBytes _ _ _

/-! ### Reading the header fields back from the emitted bytes -/

theorem readU16_headers_0 (w h : Nat) (t : List Nat) :
    readU16 (bmpHeaders w h ++ t) 0 = 0x4D42 := by
  simp [readU16, bmpHeaders, le16, le32, byteAt]

theorem readU32_headers_2 (w h : Nat) (t : List Nat) :
    readU32 (bmpHeaders w h ++ t) 2 = (54 + GetBMPStride w * h) % 4294967296 := by
  simp only [readU32, bmpHeaders, le16, le32, byteAt]
  simp
  generalize GetBMPStride w * h = X
  omega

theorem bytes_6_to_9_headers (w h : Nat) (t : List Nat) :
    byteAt (bmpHeaders w h ++ t) 6 = 0 ∧ byteAt (bmpHeaders w h ++ t) 7 = 0 ∧
      byteAt (bmpHeaders w h ++ t) 8 = 0 ∧ byteAt (bmpHeaders w h ++ t) 9 = 0 := by
  refine ⟨?_, ?_, ?_, ?_⟩ <;> simp [bmpHeaders, le16, le32, byteAt]

theorem readU32_headers_10 (w h : Nat) (t : List Nat) :
    readU32 (bmpHeaders w h ++ t) 10 = 54 := by
  simp [readU32, bmpHeaders, le16, le32, byteAt]

theorem readU32_headers_14 (w h : Nat) (t : List Nat) :
    readU32 (bmpHeaders w h ++ t) 14 = 40 := by
  simp [readU32, bmpHeaders, le16, le32, byteAt]

theorem readU32_headers_18 (w h : Nat) (t : List Nat) :
    readU32 (bmpHeaders w h ++ t) 18 = w % 4294967296 := by
  simp only [readU32, bmpHeaders, le16, le32, byteAt]
  simp
  omega

theorem readU32_headers_22 (w h : Nat) (t : List Nat) :
    readU32 (bmpHeaders w h ++ t) 22 = h % 4294967296 := by
  simp only [readU32, bmpHeaders, le16, le32, byteAt]
  simp
  omega

theorem readU16_headers_26 (w h : Nat) (t : List Nat) :
    readU16 (bmpHeaders w h ++ t) 26 = 1 := by
  simp [readU16, bmpHeaders, le16, le32, byteAt]

theorem readU16_headers_28 (w h : Nat) (t : List Nat) :
    readU16 (bmpHeaders w h ++ t) 28 = 24 := by
  simp [readU16, bmpHeaders, le16, le32, byteAt]

theorem readU32_headers_30 (w h : Nat) (t : List Nat) :
    readU32 (bmpHeaders w h ++ t) 30 = 0 := by
  simp [readU32, bmpHeaders, le16, le32, byteAt]

theorem readU32_headers_34 (w h : Nat) (t : List Nat) :
    readU32 (bmpHeaders w h ++ t) 34 = GetBMPStride w * h % 4294967296 := by
  simp only [readU32, bmpHeaders, le16, le32, byteAt]
  simp
  generalize GetBMPStride w * h = X
  omega

theorem toInt32_small (n : Nat) (h : n < 2 ^ 31) : toInt32 (n % 4294967296) = n := by
  unfold toInt32
  rw [Nat.mod_eq_of_lt (by omega), if_pos (by exact_mod_cast h)]

/-! ### The row-reading loop -/

theorem readRows_none_iff (bs : List Nat) (s : Nat) :
    ∀ (n : Nat) (pos : Nat), readRows bs pos s n = none ↔
      ∃ k, k < n ∧ bs.length < pos + k * s + s := by
  intro n
  induction n with
  | zero =>
    intro pos
    simp [readRows]
  | succ n ih =>
    intro pos
    unfold readRows
    cases hrow : readRow bs pos s with
    | none =>
      unfold readRow at hrow
      rw [ite_eq_right_iff] at hrow
      have hlen : bs.length < pos + s := by
        by_contra hc
        exact Option.noConfusion (hrow (by omega))
      simp only [true_iff]
      exact ⟨0, by omega, by omega⟩
    | some row =>
      have hfit : pos + s ≤ bs.length := by
        unfold readRow at hrow
        by_contra hc
        rw [if_neg (by omega)] at hrow
        exact Option.noConfusion hrow
      cases hrest : readRows bs (pos + s) s n with
      | none =>
        obtain ⟨k, hk, hlen⟩ := (ih (pos + s)).mp hrest
        simp only [true_iff]
        have hks : (k + 1) * s = k * s + s := by ring
        exact ⟨k + 1, by omega, by omega⟩
      | some rest =>
        simp only [reduceCtorEq, false_iff, not_exists, not_and]
        intro k hk
        match k with
        | 0 => omega
        | k + 1 =>
          have : ¬ (∃ k, k < n ∧ bs.length < (pos + s) + k * s + s) := by
            rw [← ih (pos + s)]
            simp [hrest]
          push_neg at this
          have hbound := this k (by omega)
          have : (k + 1) * s = k * s + s := by ring
          omega

theorem readRows_some_spec (bs : List Nat) (s : Nat) :
    ∀ (n : Nat) (pos : Nat) (fr : List (List Nat)), readRows bs pos s n = some fr →
      fr.length = n ∧
        ∀ r, r < n → fr.getD r [] =
          (List.range s).map fun j => byteAt bs (pos + r * s + j) := by
  intro n
  induction n with
  | zero =>
    intro pos fr h
    simp only [readRows, Option.some.injEq] at h
    subst h
    exact ⟨rfl, fun r hr => absurd hr (Nat.not_lt_zero r)⟩
  | succ n ih =>
    intro pos fr h
    unfold readRows at h
    cases hrow : readRow bs pos s with
    | none => rw [hrow] at h; exact Option.noConfusion h
    | some row =>
      rw [hrow] at h
      cases hrest : readRows bs (pos + s) s n with
      | none => rw [hrest] at h; exact Option.noConfusion h
      | some rest =>
        rw [hrest] at h
        simp only [Option.some.injEq] at h
        subst h
        obtain ⟨hlen, hidx⟩ := ih (pos + s) rest hrest
        have hrowval : row = (List.range s).map fun j => byteAt bs (pos + j) := by
          unfold readRow at hrow
          by_cases hc : pos + s ≤ bs.length
          · rw [if_pos hc] at hrow
            exact (Option.some.injEq _ _ ▸ hrow.symm)
          · rw [if_neg hc] at hrow
            exact Option.noConfusion hrow
        refine ⟨by simp [hlen], ?_⟩
        intro r hr
        match r with
        | 0 =>
          rw [List.getD_cons_zero, hrowval]
          apply List.map_congr_left
          intro j _
          congr 1
          ring
        | r + 1 =>
          rw [List.getD_cons_succ, hidx r (by omega)]
          apply List.map_congr_left
          intro j _
          congr 1
          ring

/-! ### Content of an encoded row and of a decoded row -/

theorem getD_range (d : Nat) {n k : Nat} (h : k < n) : (List.range n).getD k d = k := by
  simp [List.getD, List.getElem?_range, h]

theorem rowBytes_getD_blue (s w : Nat) (line : List Pixel) {x : Nat}
    (hx : x < w) (h3 : 3 * w ≤ s) :
    (rowBytes s w line).getD (3 * x) 0 = (line.getD x default).b % 256 := by
  unfold rowBytes
  rw [getD_map_range _ _ (by omega), if_pos (by omega),
    show 3 * x % 3 = 0 by omega]
  rw [show 3 * x / 3 = x by omega]

theorem rowBytes_getD_green (s w : Nat) (line : List Pixel) {x : Nat}
    (hx : x < w) (h3 : 3 * w ≤ s) :
    (rowBytes s w line).getD (3 * x + 1) 0 = (line.getD x default).g % 256 := by
  unfold rowBytes
  rw [getD_map_range _ _ (by omega), if_pos (by omega),
    show (3 * x + 1) % 3 = 1 by omega]
  rw [show (3 * x + 1) / 3 = x by omega]

theorem rowBytes_getD_red (s w : Nat) (line : List Pixel) {x : Nat}
    (hx : x < w) (h3 : 3 * w ≤ s) :
    (rowBytes s w line).getD (3 * x + 2) 0 = (line.getD x default).r % 256 := by
  unfold rowBytes
  rw [getD_map_range _ _ (by omega), if_pos (by omega),
    show (3 * x + 2) % 3 = 2 by omega]
  rw [show (3 * x + 2) / 3 = x by omega]

theorem rowBytes_getD_pad (s w : Nat) (line : List Pixel) {i : Nat}
    (h3 : 3 * w ≤ i) (hi : i < s) :
    (rowBytes s w line).getD i 0 = 0 := by
  unfold rowBytes
  rw [getD_map_range _ _ hi, if_neg (by omega)]

theorem length_decodeRow (fr : List Nat) (w cols : Nat) :
    (decodeRow fr w cols).length = cols := by
  simp [decodeRow]

theorem decodeRow_getD_lt (fr : List Nat) (w cols : Nat) {x : Nat}
    (hx : x < w) (hcols : x < cols) :
    (decodeRow fr w cols).getD x default =
      ⟨fr.getD (3 * x + 2) 0, fr.getD (3 * x + 1) 0, fr.getD (3 * x) 0⟩ := by
  unfold decodeRow
  rw [getD_map_range _ _ hcols, if_pos hx]

theorem decodeRow_getD_ge (fr : List Nat) (w cols : Nat) {x : Nat}
    (hx : w ≤ x) (hcols : x < cols) :
    (decodeRow fr w cols).getD x default = blackPixel := by
  unfold decodeRow
  rw [getD_map_range _ _ hcols, if_neg (by omega)]

/-! ### Indexing into the pixel zone of the emitted file -/

theorem SaveBMP_pixel_byte (img : Image) {r j : Nat}
    (hr : r < img.height) (hj : j < GetBMPStride img.width) :
    byteAt (SaveBMP img) (54 + r * GetBMPStride img.width + j) =
      (rowBytes (GetBMPStride img.width) img.width
        (img.rows.getD (img.height - 1 - r) [])).getD j 0 := by
  unfold SaveBMP byteAt
  rw [getD_append_skip _ _ _ _ (by rw [length_bmpHeaders]; omega), length_bmpHeaders,
    show 54 + r * GetBMPStride img.width + j - 54 = r * GetBMPStride img.width + j by omega]
  rw [getD_flatten_const 0 ?hlens (by simpa using hr) hj]
  case hlens =>
    intro l hl
    simp only [List.mem_map] at hl
    obtain ⟨y, _, rfl⟩ := hl
    exact length_rowBytes _ _ _
  rw [getD_map_of_lt _ _ _ 0 (by simpa using hr),
    getD_reverse _ _ (by simpa using hr)]
  rw [List.length_range, getD_range _ (by omega)]

/-! ### Decoding the encoder's output -/

theorem LoadBMP_SaveBMP (img : Image) (hw : 0 < img.width) (hh : 0 < img.height)
    (hw31 : img.width < 2 ^ 31) (hh31 : img.height < 2 ^ 31) :
    ∃ fileRows,
      readRows (SaveBMP img) 54 (GetBMPStride img.width) img.height = some fileRows ∧
        LoadBMP (SaveBMP img) = some ⟨GetBMPStride img.width / 3, img.height,
          fileRows.reverse.map fun fr =>
            decodeRow fr img.width (GetBMPStride img.width / 3)⟩ := by
  have hlen := length_SaveBMP img
  have h0 : readU16 (SaveBMP img) 0 = 0x4D42 := readU16_headers_0 _ _ _
  have h10 : readU32 (SaveBMP img) 10 = 54 := readU32_headers_10 _ _ _
  have h14 : readU32 (SaveBMP img) 14 = 40 := readU32_headers_14 _ _ _
  have h26 : readU16 (SaveBMP img) 26 = 1 := readU16_headers_26 _ _ _
  have h28 : readU16 (SaveBMP img) 28 = 24 := readU16_headers_28 _ _ _
  have h30 : readU32 (SaveBMP img) 30 = 0 := readU32_headers_30 _ _ _
  have h18 : readU32 (SaveBMP img) 18 = img.width % 4294967296 := readU32_headers_18 _ _ _
  have h22 : readU32 (SaveBMP img) 22 = img.height % 4294967296 := readU32_headers_22 _ _ _
  have ht18 : toInt32 (readU32 (SaveBMP img) 18) = img.width := by
    rw [h18]; exact toInt32_small _ hw31
  have ht22 : toInt32 (readU32 (SaveBMP img) 22) = img.height := by
    rw [h22]; exact toInt32_small _ hh31
  have hrr : readRows (SaveBMP img) 54 (GetBMPStride img.width) img.height = none → False := by
    intro hnone
    rw [readRows_none_iff] at hnone
    obtain ⟨k, hk, hl⟩ := hnone
    have h2 : (k + 1) * GetBMPStride img.width ≤ img.height * GetBMPStride img.width :=
      Nat.mul_le_mul_right _ (by omega)
    have h3 : (k + 1) * GetBMPStride img.width =
        k * GetBMPStride img.width + GetBMPStride img.width := by ring
    have h4 : img.height * GetBMPStride img.width =
        GetBMPStride img.width * img.height := by ring
    omega
  obtain ⟨FR, hFR⟩ :
      ∃ FR, readRows (SaveBMP img) 54 (GetBMPStride img.width) img.height = some FR := by
    cases hc : readRows (SaveBMP img) 54 (GetBMPStride img.width) img.height with
    | none => exact (hrr hc).elim
    | some FR => exact ⟨FR, rfl⟩
  refine ⟨FR, hFR, ?_⟩
  unfold LoadBMP
  rw [if_neg (by omega), if_neg (by omega), if_neg ?hval]
  case hval =>
    rintro (hc | hc | hc | hc | hc | hc | hc | hc)
    · exact hc h0
    · exact hc h10
    · exact hc h14
    · exact hc h26
    · exact hc h28
    · exact hc h30
    · rw [ht18] at hc; omega
    · rw [ht22] at hc; omega
  simp only [ht18, ht22, Int.toNat_natCast]
  rw [hFR]

/-- Inverting a successful decode: the validation passed, the row reads
succeeded, and the image is built from the rows read. -/
theorem LoadBMP_some_inv {bs : List Nat} {img : Image} (h : LoadBMP bs = some img) :
    0 < (toInt32 (readU32 bs 18)).toNat ∧ 0 < (toInt32 (readU32 bs 22)).toNat ∧
      ∃ FR, readRows bs 54 (GetBMPStride (toInt32 (readU32 bs 18)).toNat)
          (toInt32 (readU32 bs 22)).toNat = some FR ∧
        img = ⟨GetBMPStride (toInt32 (readU32 bs 18)).toNat / 3,
          (toInt32 (readU32 bs 22)).toNat,
          FR.reverse.map fun fr => decodeRow fr (toInt32 (readU32 bs 18)).toNat
            (GetBMPStride (toInt32 (readU32 bs 18)).toNat / 3)⟩ := by
  unfold LoadBMP at h
  by_cases h1 : bs.length < 14
  · rw [if_pos h1] at h; exact Option.noConfusion h
  rw [if_neg h1] at h
  by_cases h2 : bs.length < 54
  · rw [if_pos h2] at h; exact Option.noConfusion h
  rw [if_neg h2] at h
  by_cases h3 : readU16 bs 0 ≠ 0x4D42 ∨ readU32 bs 10 ≠ 54 ∨
      readU32 bs 14 ≠ 40 ∨ readU16 bs 26 ≠ 1 ∨ readU16 bs 28 ≠ 24 ∨
      readU32 bs 30 ≠ 0 ∨ toInt32 (readU32 bs 18) ≤ 0 ∨ toInt32 (readU32 bs 22) ≤ 0
  · rw [if_pos h3] at h; exact Option.noConfusion h
  rw [if_neg h3] at h
  push_neg at h3
  obtain ⟨-, -, -, -, -, -, hwpos, hhpos⟩ := h3
  refine ⟨by omega, by omega, ?_⟩
  cases hrr : readRows bs 54 (GetBMPStride (toInt32 (readU32 bs 18)).toNat)
      (toInt32 (readU32 bs 22)).toNat with
  | none =>
    rw [hrr] at h; exact Option.noConfusion h
  | some FR =>
    rw [hrr] at h
    simp only [Option.some.injEq] at h
    exact ⟨FR, rfl, h.symm⟩

theorem getD_mem {α} (l : List α) (d : α) {i : Nat} (h : i < l.length) :
    l.getD i d ∈ l := by
  rw [List.getD_eq_getElem l d h]
  exact List.getElem_mem h

/-- Each pixel of the image decoded from the encoder's output agrees with
the original image on every column left of `width`. -/
theorem roundtrip_pixel (img : Image) (hwf : img.WellFormed)
    {FR : List (List Nat)}
    (hFR : readRows (SaveBMP img) 54 (GetBMPStride img.width) img.height = some FR)
    {x y : Nat} (hx : x < img.width) (hy : y < img.height) :
    ((FR.reverse.map fun fr =>
        decodeRow fr img.width (GetBMPStride img.width / 3)).getD y []).getD x default =
      img.pixelAt x y := by
  obtain ⟨hFRlen, hFRidx⟩ := readRows_some_spec _ _ _ _ _ hFR
  have hyR : y < FR.reverse.length := by simp [hFRlen]; omega
  rw [getD_map_of_lt _ _ _ [] hyR, getD_reverse _ _ (by simp [hFRlen]; omega)]
  rw [hFRlen, hFRidx (img.height - 1 - y) (by omega)]
  have hcols : x < GetBMPStride img.width / 3 := by
    have := stride_div_three img.width
    split at this <;> omega
  rw [decodeRow_getD_lt _ _ _ hx hcols]
  have h3s := three_mul_le_stride img.width
  rw [getD_map_range _ _ (by omega), getD_map_range _ _ (by omega),
    getD_map_range _ _ (by omega)]
  rw [SaveBMP_pixel_byte img (by omega) (by omega),
    SaveBMP_pixel_byte img (by omega) (by omega),
    SaveBMP_pixel_byte img (by omega) (by omega)]
  rw [show img.height - 1 - (img.height - 1 - y) = y by omega]
  rw [rowBytes_getD_blue _ _ _ hx h3s, rowBytes_getD_green _ _ _ hx h3s,
    rowBytes_getD_red _ _ _ hx h3s]
  obtain ⟨hrows, hrow⟩ := hwf
  have hmemrow : img.rows.getD y [] ∈ img.rows := getD_mem _ _ (by omega)
  obtain ⟨hrlen, hvalid⟩ := hrow _ hmemrow
  have hmem : (img.rows.getD y []).getD x default ∈ img.rows.getD y [] :=
    getD_mem _ _ (by omega)
  obtain ⟨hr256, hg256, hb256⟩ := hvalid _ hmem
  unfold Image.pixelAt
  rw [Nat.mod_eq_of_lt hr256, Nat.mod_eq_of_lt hg256, Nat.mod_eq_of_lt hb256]

/-! ### Concrete inputs used by witnesses and counterexamples -/

/-- The 2×2 fixture of the spec: top row (255,0,0),(0,255,0); bottom row
(0,0,255),(255,255,255). -/
def fixture2x2 : Image :=
  ⟨2, 2, [[⟨255, 0, 0⟩, ⟨0, 255, 0⟩], [⟨0, 0, 255⟩, ⟨255, 255, 255⟩]]⟩

/-- A well-formed 3×1 image; its width is congruent to 3 modulo 4. -/
def img3x1 : Image := ⟨3, 1, [[⟨1, 2, 3⟩, ⟨4, 5, 6⟩, ⟨7, 8, 9⟩]]⟩

/-- A syntactically valid BMP file declaring width 3, height 1, with 12
pixel-data bytes of value 7. -/
def bs3x1 : List Nat := bmpHeaders 3 1 ++ List.replicate 12 7

/-- A valid BMP file declaring width 3, height 2, with 24 pixel-data bytes
of value 5. -/
def bs3x2 : List Nat := bmpHeaders 3 2 ++ List.replicate 24 5

/-- A valid BMP file declaring width 1, height 1 and one pixel (B,G,R) =
(9,8,250) plus one padding byte. -/
def bs1x1 : List Nat := bmpHeaders 1 1 ++ [9, 8, 250, 0]

/-! ### The claims -/

/-- C4: for every width `w ≥ 0` the computed stride equals
`4 * ((3*w + 3) / 4)`, and for every `w ≥ 1` it is a multiple of 4, at
least `3*w`, and exceeds `3*w` by at most 3. -/
theorem c4_stride :
    (∀ w : Nat, GetBMPStride w = 4 * ((3 * w + 3) / 4)) ∧
      ∀ w : Nat, 1 ≤ w →
        GetBMPStride w % 4 = 0 ∧ 3 * w ≤ GetBMPStride w ∧
          (GetBMPStride w - 3 * w = 0 ∨ GetBMPStride w - 3 * w = 1 ∨
            GetBMPStride w - 3 * w = 2 ∨ GetBMPStride w - 3 * w = 3) := by
  refine ⟨stride_eq, fun w _ => ⟨stride_mod4 w, three_mul_le_stride w, ?_⟩⟩
  have := stride_sub_lt w
  omega

/-- C4 witness: the stride properties evaluated at width 5. -/
theorem c4_stride_witness :
    GetBMPStride 5 % 4 = 0 ∧ 3 * 5 ≤ GetBMPStride 5 ∧
      (GetBMPStride 5 - 3 * 5 = 0 ∨ GetBMPStride 5 - 3 * 5 = 1 ∨
        GetBMPStride 5 - 3 * 5 = 2 ∨ GetBMPStride 5 - 3 * 5 = 3) :=
  c4_stride.2 5 (by decide)

/-- C9: saving the 0×0 image emits exactly the 54 header bytes — stride 0,
file-size field 54, width, height and `biSizeImage` fields 0, no pixel
rows — and the save reports success whenever the sink accepts all 54
bytes. -/
theorem c9_empty_image :
    GetBMPStride 0 = 0 ∧
      (SaveBMP ⟨0, 0, []⟩).length = 54 ∧
      (SaveBMP ⟨0, 0, []⟩).drop 54 = [] ∧
      readU32 (SaveBMP ⟨0, 0, []⟩) 2 = 54 ∧
      readU32 (SaveBMP ⟨0, 0, []⟩) 34 = 0 ∧
      readU32 (SaveBMP ⟨0, 0, []⟩) 18 = 0 ∧
      readU32 (SaveBMP ⟨0, 0, []⟩) 22 = 0 ∧
      ∀ cap : Nat, 54 ≤ cap → saveBMPGood cap ⟨0, 0, []⟩ = true := by
  refine ⟨by decide, by decide, by decide, by decide, by decide, by decide, by decide, ?_⟩
  intro cap hc
  have hl : (SaveBMP ⟨0, 0, []⟩).length = 54 := by decide
  simp [saveBMPGood, hl, hc]

/-- C9 witness: a sink of capacity 100 accepts the empty image's output. -/
theorem c9_empty_image_witness : saveBMPGood 100 ⟨0, 0, []⟩ = true :=
  c9_empty_image.2.2.2.2.2.2.2 100 (by decide)

/-- C6: the emitted file header carries signature 0x4D42, file size
`14 + 40 + stride*height` and offset 54, the info header carries the
buffer's width, height, `biSizeImage = stride*height`, bit depth 24,
compression 0, planes 1; and the 2×2 fixture encodes to 70 bytes whose
bytes 54..56 are 0xFF, 0x00, 0x00. -/
theorem c6_header_fields (img : Image) (hw31 : img.width < 2 ^ 31)
    (hh31 : img.height < 2 ^ 31)
    (hsz : 54 + GetBMPStride img.width * img.height < 4294967296) :
    readU16 (SaveBMP img) 0 = 0x4D42 ∧
      readU32 (SaveBMP img) 2 = 14 + 40 + GetBMPStride img.width * img.height ∧
      readU32 (SaveBMP img) 10 = 54 ∧
      readU32 (SaveBMP img) 18 = img.width ∧
      readU32 (SaveBMP img) 22 = img.height ∧
      readU32 (SaveBMP img) 34 = GetBMPStride img.width * img.height ∧
      readU16 (SaveBMP img) 28 = 24 ∧
      readU32 (SaveBMP img) 30 = 0 ∧
      readU16 (SaveBMP img) 26 = 1 ∧
      (SaveBMP fixture2x2).length = 70 ∧
      byteAt (SaveBMP fixture2x2) 54 = 0xFF ∧
      byteAt (SaveBMP fixture2x2) 55 = 0 ∧
      byteAt (SaveBMP fixture2x2) 56 = 0 := by
  refine ⟨readU16_headers_0 _ _ _, ?_, readU32_headers_10 _ _ _, ?_, ?_, ?_,
    readU16_headers_28 _ _ _, readU32_headers_30 _ _ _, readU16_headers_26 _ _ _,
    by decide, by decide, by decide, by decide⟩
  · have h2 : readU32 (SaveBMP img) 2 =
        (54 + GetBMPStride img.width * img.height) % 4294967296 :=
      readU32_headers_2 _ _ _
    rw [h2, Nat.mod_eq_of_lt hsz]
  · have h18 : readU32 (SaveBMP img) 18 = img.width % 4294967296 :=
      readU32_headers_18 _ _ _
    rw [h18, Nat.mod_eq_of_lt (by omega)]
  · have h22 : readU32 (SaveBMP img) 22 = img.height % 4294967296 :=
      readU32_headers_22 _ _ _
    rw [h22, Nat.mod_eq_of_lt (by omega)]
  · have h34 : readU32 (SaveBMP img) 34 =
        GetBMPStride img.width * img.height % 4294967296 :=
      readU32_headers_34 _ _ _
    rw [h34]
    generalize hP : GetBMPStride img.width * img.height = P at hsz ⊢
    rw [Nat.mod_eq_of_lt (by omega)]

/-- C6 witness: the header facts evaluated at the 2×2 fixture. -/
theorem c6_header_fields_witness :
    readU16 (SaveBMP fixture2x2) 0 = 0x4D42 ∧
      readU32 (SaveBMP fixture2x2) 2 =
        14 + 40 + GetBMPStride fixture2x2.width * fixture2x2.height ∧
      readU32 (SaveBMP fixture2x2) 10 = 54 ∧
      readU32 (SaveBMP fixture2x2) 18 = fixture2x2.width ∧
      readU32 (SaveBMP fixture2x2) 22 = fixture2x2.height ∧
      readU32 (SaveBMP fixture2x2) 34 = GetBMPStride fixture2x2.width * fixture2x2.height ∧
      readU16 (SaveBMP fixture2x2) 28 = 24 ∧
      readU32 (SaveBMP fixture2x2) 30 = 0 ∧
      readU16 (SaveBMP fixture2x2) 26 = 1 ∧
      (SaveBMP fixture2x2).length = 70 ∧
      byteAt (SaveBMP fixture2x2) 54 = 0xFF ∧
      byteAt (SaveBMP fixture2x2) 55 = 0 ∧
      byteAt (SaveBMP fixture2x2) 56 = 0 :=
  c6_header_fields fixture2x2 (by decide) (by decide) (by decide)

/-- C7: when every header check passes but the source holds fewer than
`stride * height` pixel-data bytes, `LoadBMP` returns the sentinel. -/
theorem c7_truncated_input (bs : List Nat)
    (h14 : ¬ bs.length < 14) (h54 : ¬ bs.length < 54)
    (hsig : readU16 bs 0 = 0x4D42) (hoff : readU32 bs 10 = 54)
    (hisz : readU32 bs 14 = 40) (hpl : readU16 bs 26 = 1)
    (hbc : readU16 bs 28 = 24) (hcomp : readU32 bs 30 = 0)
    (hwpos : 0 < toInt32 (readU32 bs 18)) (hhpos : 0 < toInt32 (readU32 bs 22))
    (hshort : bs.length < 54 + GetBMPStride (toInt32 (readU32 bs 18)).toNat *
        (toInt32 (readU32 bs 22)).toNat) :
    LoadBMP bs = none := by
  unfold LoadBMP
  rw [if_neg h14, if_neg h54, if_neg ?hval]
  case hval =>
    rintro (hc | hc | hc | hc | hc | hc | hc | hc)
    · exact hc hsig
    · exact hc hoff
    · exact hc hisz
    · exact hc hpl
    · exact hc hbc
    · exact hc hcomp
    · omega
    · omega
  have hh1 : 0 < (toInt32 (readU32 bs 22)).toNat := by omega
  have hnone : readRows bs 54 (GetBMPStride (toInt32 (readU32 bs 18)).toNat)
      (toInt32 (readU32 bs 22)).toNat = none := by
    rw [readRows_none_iff]
    refine ⟨(toInt32 (readU32 bs 22)).toNat - 1, by omega, ?_⟩
    have hmul : ((toInt32 (readU32 bs 22)).toNat - 1) *
          GetBMPStride (toInt32 (readU32 bs 18)).toNat +
          GetBMPStride (toInt32 (readU32 bs 18)).toNat =
        GetBMPStride (toInt32 (readU32 bs 18)).toNat *
          (toInt32 (readU32 bs 22)).toNat := by
      cases hhn : (toInt32 (readU32 bs 22)).toNat with
      | zero => omega
      | succ m => simp [hhn]; ring
    omega
  rw [hnone]

/-- C7 witness: a file with valid headers and no pixel data at all. -/
theorem c7_truncated_input_witness : LoadBMP (bmpHeaders 1 1) = none :=
  c7_truncated_input (bmpHeaders 1 1) (by decide) (by decide) (by decide)
    (by decide) (by decide) (by decide) (by decide) (by decide) (by decide)
    (by decide) (by decide)

/-- C10: a successful decode returns `height` rows, `GetBMPStride width / 3`
columns (one extra exactly when `width % 4 = 3`), and every pixel in a
column at index at least `width` is Black. -/
theorem c10_decoded_shape (bs : List Nat) (img : Image) (h : LoadBMP bs = some img) :
    img.height = (toInt32 (readU32 bs 22)).toNat ∧
      img.width = GetBMPStride (toInt32 (readU32 bs 18)).toNat / 3 ∧
      img.width = (toInt32 (readU32 bs 18)).toNat +
        (if (toInt32 (readU32 bs 18)).toNat % 4 = 3 then 1 else 0) ∧
      ∀ y, y < img.height → ∀ x, (toInt32 (readU32 bs 18)).toNat ≤ x →
        x < img.width → img.pixelAt x y = blackPixel := by
  obtain ⟨hwpos, hhpos, FR, hFR, himg⟩ := LoadBMP_some_inv h
  obtain ⟨hFRlen, -⟩ := readRows_some_spec _ _ _ _ _ hFR
  subst himg
  refine ⟨rfl, rfl, stride_div_three _, ?_⟩
  intro y hy x hxw hxcols
  unfold Image.pixelAt
  rw [getD_map_of_lt _ _ _ [] (by simpa [hFRlen] using hy)]
  exact decodeRow_getD_ge _ _ _ hxw hxcols

/-- C10 witness: the decode of a 3×2 file gains a fourth, Black column. -/
theorem c10_decoded_shape_witness :
    (⟨4, 2, [[⟨5,5,5⟩, ⟨5,5,5⟩, ⟨5,5,5⟩, ⟨0,0,0⟩],
        [⟨5,5,5⟩, ⟨5,5,5⟩, ⟨5,5,5⟩, ⟨0,0,0⟩]]⟩ : Image).height =
        (toInt32 (readU32 bs3x2 22)).toNat ∧
      (⟨4, 2, [[⟨5,5,5⟩, ⟨5,5,5⟩, ⟨5,5,5⟩, ⟨0,0,0⟩],
        [⟨5,5,5⟩, ⟨5,5,5⟩, ⟨5,5,5⟩, ⟨0,0,0⟩]]⟩ : Image).width =
        GetBMPStride (toInt32 (readU32 bs3x2 18)).toNat / 3 ∧
      (⟨4, 2, [[⟨5,5,5⟩, ⟨5,5,5⟩, ⟨5,5,5⟩, ⟨0,0,0⟩],
        [⟨5,5,5⟩, ⟨5,5,5⟩, ⟨5,5,5⟩, ⟨0,0,0⟩]]⟩ : Image).width =
        (toInt32 (readU32 bs3x2 18)).toNat +
          (if (toInt32 (readU32 bs3x2 18)).toNat % 4 = 3 then 1 else 0) ∧
      ∀ y, y < (⟨4, 2, [[⟨5,5,5⟩, ⟨5,5,5⟩, ⟨5,5,5⟩, ⟨0,0,0⟩],
          [⟨5,5,5⟩, ⟨5,5,5⟩, ⟨5,5,5⟩, ⟨0,0,0⟩]]⟩ : Image).height →
        ∀ x, (toInt32 (readU32 bs3x2 18)).toNat ≤ x →
          x < (⟨4, 2, [[⟨5,5,5⟩, ⟨5,5,5⟩, ⟨5,5,5⟩, ⟨0,0,0⟩],
            [⟨5,5,5⟩, ⟨5,5,5⟩, ⟨5,5,5⟩, ⟨0,0,0⟩]]⟩ : Image).width →
          (⟨4, 2, [[⟨5,5,5⟩, ⟨5,5,5⟩, ⟨5,5,5⟩, ⟨0,0,0⟩],
            [⟨5,5,5⟩, ⟨5,5,5⟩, ⟨5,5,5⟩, ⟨0,0,0⟩]]⟩ : Image).pixelAt x y = blackPixel :=
  c10_decoded_shape bs3x2 _ (by decide)

/-- C2 counterexample: the file `bs3x1` declares width 3 but decodes to a
buffer of width 4. -/
theorem c2_counterexample :
    toInt32 (readU32 bs3x1 18) = 3 ∧ toInt32 (readU32 bs3x1 22) = 1 ∧
      (LoadBMP bs3x1).map Image.width = some 4 ∧
      ¬ (LoadBMP bs3x1).map Image.width = some 3 := by decide

/-- C2 (amended): a successful decode returns exactly the declared number
of rows, and `GetBMPStride width / 3` columns, which equals the declared
width exactly when that width is not congruent to 3 modulo 4. -/
theorem c2_dimensions (bs : List Nat) (img : Image) (h : LoadBMP bs = some img) :
    img.height = (toInt32 (readU32 bs 22)).toNat ∧
      img.width = GetBMPStride (toInt32 (readU32 bs 18)).toNat / 3 ∧
      ((toInt32 (readU32 bs 18)).toNat % 4 ≠ 3 →
        img.width = (toInt32 (readU32 bs 18)).toNat) := by
  obtain ⟨hwpos, hhpos, FR, hFR, himg⟩ := LoadBMP_some_inv h
  subst himg
  refine ⟨rfl, rfl, ?_⟩
  intro hne
  have := stride_div_three (toInt32 (readU32 bs 18)).toNat
  rw [if_neg hne] at this
  simpa using this

/-- C2 witness: a 1×1 file decodes to a 1×1 buffer. -/
theorem c2_dimensions_witness :
    (⟨1, 1, [[⟨250, 8, 9⟩]]⟩ : Image).height = (toInt32 (readU32 bs1x1 22)).toNat ∧
      (⟨1, 1, [[⟨250, 8, 9⟩]]⟩ : Image).width =
        GetBMPStride (toInt32 (readU32 bs1x1 18)).toNat / 3 ∧
      ((toInt32 (readU32 bs1x1 18)).toNat % 4 ≠ 3 →
        (⟨1, 1, [[⟨250, 8, 9⟩]]⟩ : Image).width = (toInt32 (readU32 bs1x1 18)).toNat) :=
  c2_dimensions bs1x1 _ (by decide)

/-- C1 counterexample: a well-formed 3×1 buffer (width ≥ 1, height ≥ 1)
whose decode-of-encode does not reproduce its width: the decoded buffer is
4 columns wide. -/
theorem c1_counterexample :
    img3x1.WellFormed ∧ 0 < img3x1.width ∧ 0 < img3x1.height ∧
      ¬ (LoadBMP (SaveBMP img3x1)).map Image.width = some img3x1.width := by
  decide

/-- C1 (amended): decoding the encoder's output reproduces the height and
every original pixel, and reproduces the width exactly when the width is
not congruent to 3 modulo 4 (otherwise the decoded buffer has one extra
column). -/
theorem c1_roundtrip (img : Image) (hwf : img.WellFormed) (hw : 0 < img.width)
    (hh : 0 < img.height) (hw31 : img.width < 2 ^ 31) (hh31 : img.height < 2 ^ 31) :
    ∃ img2, LoadBMP (SaveBMP img) = some img2 ∧
      img2.height = img.height ∧
      img2.width = GetBMPStride img.width / 3 ∧
      (img2.width = img.width ↔ img.width % 4 ≠ 3) ∧
      ∀ y, y < img.height → ∀ x, x < img.width →
        img2.pixelAt x y = img.pixelAt x y := by
  obtain ⟨FR, hFR, hload⟩ := LoadBMP_SaveBMP img hw hh hw31 hh31
  refine ⟨_, hload, rfl, rfl, ?_, ?_⟩
  · show GetBMPStride img.width / 3 = img.width ↔ img.width % 4 ≠ 3
    have hs3 := stride_div_three img.width
    by_cases hc : img.width % 4 = 3
    · rw [hs3, if_pos hc]
      exact iff_of_false (by omega) fun hne => hne hc
    · rw [hs3, if_neg hc]
      exact iff_of_true (by omega) hc
  · intro y hy x hx
    exact roundtrip_pixel img hwf hFR hx hy

/-- C1 witness: the round trip evaluated on the 2×2 fixture. -/
theorem c1_roundtrip_witness :
    ∃ img2, LoadBMP (SaveBMP fixture2x2) = some img2 ∧
      img2.height = fixture2x2.height ∧
      img2.width = GetBMPStride fixture2x2.width / 3 ∧
      (img2.width = fixture2x2.width ↔ fixture2x2.width % 4 ≠ 3) ∧
      ∀ y, y < fixture2x2.height → ∀ x, x < fixture2x2.width →
        img2.pixelAt x y = fixture2x2.pixelAt x y :=
  c1_roundtrip fixture2x2 (by decide) (by decide) (by decide) (by decide) (by decide)

/-- Failure characterization of `LoadBMP` on an opened source. -/
theorem LoadBMP_none_iff (bs : List Nat) :
    LoadBMP bs = none ↔
      bs.length < 14 ∨ bs.length < 54 ∨
        readU16 bs 0 ≠ 0x4D42 ∨ readU32 bs 10 ≠ 54 ∨ readU32 bs 14 ≠ 40 ∨
        readU16 bs 26 ≠ 1 ∨ readU16 bs 28 ≠ 24 ∨ readU32 bs 30 ≠ 0 ∨
        toInt32 (readU32 bs 18) ≤ 0 ∨ toInt32 (readU32 bs 22) ≤ 0 ∨
        ∃ k, k < (toInt32 (readU32 bs 22)).toNat ∧
          bs.length < 54 + k * GetBMPStride (toInt32 (readU32 bs 18)).toNat +
            GetBMPStride (toInt32 (readU32 bs 18)).toNat := by
  unfold LoadBMP
  by_cases h1 : bs.length < 14
  · rw [if_pos h1]; exact iff_of_true rfl (Or.inl h1)
  rw [if_neg h1]
  by_cases h2 : bs.length < 54
  · rw [if_pos h2]; exact iff_of_true rfl (Or.inr (Or.inl h2))
  rw [if_neg h2]
  by_cases h3 : readU16 bs 0 ≠ 0x4D42 ∨ readU32 bs 10 ≠ 54 ∨
      readU32 bs 14 ≠ 40 ∨ readU16 bs 26 ≠ 1 ∨ readU16 bs 28 ≠ 24 ∨
      readU32 bs 30 ≠ 0 ∨ toInt32 (readU32 bs 18) ≤ 0 ∨ toInt32 (readU32 bs 22) ≤ 0
  · rw [if_pos h3]
    refine iff_of_true rfl ?_
    tauto
  rw [if_neg h3]
  push_neg at h3
  obtain ⟨e0, e10, e14, e26, e28, e30, ew, eh⟩ := h3
  cases hrr : readRows bs 54 (GetBMPStride (toInt32 (readU32 bs 18)).toNat)
      (toInt32 (readU32 bs 22)).toNat with
  | none =>
    refine iff_of_true rfl ?_
    obtain ⟨k, hk, hl⟩ := (readRows_none_iff _ _ _ _).mp hrr
    have hex : ∃ k, k < (toInt32 (readU32 bs 22)).toNat ∧
        bs.length < 54 + k * GetBMPStride (toInt32 (readU32 bs 18)).toNat +
          GetBMPStride (toInt32 (readU32 bs 18)).toNat := ⟨k, hk, hl⟩
    tauto
  | some FR =>
    refine iff_of_false (by simp) ?_
    rintro (h | h | h | h | h | h | h | h | h | h | ⟨k, hk, hl⟩)
    · exact h1 h
    · exact h2 h
    · exact h e0
    · exact h e10
    · exact h e14
    · exact h e26
    · exact h e28
    · exact h e30
    · omega
    · omega
    · have hnone : readRows bs 54 (GetBMPStride (toInt32 (readU32 bs 18)).toNat)
          (toInt32 (readU32 bs 22)).toNat = none :=
        (readRows_none_iff _ _ _ _).mpr ⟨k, hk, hl⟩
      rw [hrr] at hnone
      exact Option.noConfusion hnone

/-- C3: the decoder yields the sentinel exactly when the source cannot be
opened, a header read is short, one of the validated fields is off, a
dimension is non-positive, or some pixel row yields fewer than `stride`
bytes. -/
theorem c3_failure_iff (src : Option (List Nat)) :
    LoadBMPFile src = none ↔
      src = none ∨ ∃ bs, src = some bs ∧
        (bs.length < 14 ∨ bs.length < 54 ∨
          readU16 bs 0 ≠ 0x4D42 ∨ readU32 bs 10 ≠ 54 ∨ readU32 bs 14 ≠ 40 ∨
          readU16 bs 26 ≠ 1 ∨ readU16 bs 28 ≠ 24 ∨ readU32 bs 30 ≠ 0 ∨
          toInt32 (readU32 bs 18) ≤ 0 ∨ toInt32 (readU32 bs 22) ≤ 0 ∨
          ∃ k, k < (toInt32 (readU32 bs 22)).toNat ∧
            bs.length < 54 + k * GetBMPStride (toInt32 (readU32 bs 18)).toNat +
              GetBMPStride (toInt32 (readU32 bs 18)).toNat) := by
  cases src with
  | none => simp [LoadBMPFile]
  | some bs =>
    rw [show LoadBMPFile (some bs) = LoadBMP bs from rfl, LoadBMP_none_iff]
    constructor
    · intro hD
      exact Or.inr ⟨bs, rfl, hD⟩
    · rintro (hsrc | ⟨bs2, heq, hD⟩)
      · exact Option.noConfusion hsrc
      · injection heq with heq2
        subst heq2
        exact hD

/-! ### The encoded row as pixels-then-padding -/

theorem replicate_getD_zero (n k : Nat) : (List.replicate n (0 : Nat)).getD k 0 = 0 := by
  by_cases hk : k < n
  · rw [List.getD_eq_getElem _ _ (by simpa using hk)]
    simp
  · rw [List.getD_eq_default _ _ (by simpa using hk)]

theorem rowBytes_flatten (s w : Nat) (line : List Pixel) (hlen : line.length = w)
    (hval : ∀ p ∈ line, p.Valid) (h3 : 3 * w ≤ s) :
    rowBytes s w line =
      (line.map fun p => [p.b, p.g, p.r]).flatten ++
        List.replicate (s - 3 * w) 0 := by
  have hchunks : ∀ l ∈ line.map fun p => [p.b, p.g, p.r], l.length = 3 := by
    intro l hl
    simp only [List.mem_map] at hl
    obtain ⟨p, -, rfl⟩ := hl
    rfl
  have hflen : (line.map fun p => [p.b, p.g, p.r]).flatten.length = w * 3 := by
    rw [flatten_length_const _ 3 hchunks, List.length_map, hlen]
  apply List.ext_getElem
  · rw [List.length_append, hflen, List.length_replicate, length_rowBytes]
    omega
  intro i hi1 hi2
  rw [← List.getD_eq_getElem _ 0 hi1, ← List.getD_eq_getElem _ 0 hi2]
  rw [length_rowBytes] at hi1
  by_cases hz : i < 3 * w
  · set x := i / 3 with hxdef
    have hx : x < w := by omega
    have hxl : x < line.length := by omega
    have hm : i % 3 = 0 ∨ i % 3 = 1 ∨ i % 3 = 2 := by omega
    have hval2 := hval _ (getD_mem line default hxl)
    obtain ⟨hr2, hg2, hb2⟩ := hval2
    rcases hm with hm | hm | hm
    · rw [show i = 3 * x by omega]
      rw [rowBytes_getD_blue s w line hx h3,
        getD_append_left _ _ _ _ (by rw [hflen]; omega),
        show 3 * x = x * 3 + 0 by ring,
        getD_flatten_const 0 hchunks (by rw [List.length_map]; omega) (by omega),
        getD_map_of_lt _ _ _ default hxl]
      exact Nat.mod_eq_of_lt hb2
    · rw [show i = 3 * x + 1 by omega]
      rw [rowBytes_getD_green s w line hx h3,
        getD_append_left _ _ _ _ (by rw [hflen]; omega),
        show 3 * x + 1 = x * 3 + 1 by ring,
        getD_flatten_const 0 hchunks (by rw [List.length_map]; omega) (by omega),
        getD_map_of_lt _ _ _ default hxl]
      exact Nat.mod_eq_of_lt hg2
    · rw [show i = 3 * x + 2 by omega]
      rw [rowBytes_getD_red s w line hx h3,
        getD_append_left _ _ _ _ (by rw [hflen]; omega),
        show 3 * x + 2 = x * 3 + 2 by ring,
        getD_flatten_const 0 hchunks (by rw [List.length_map]; omega) (by omega),
        getD_map_of_lt _ _ _ default hxl]
      exact Nat.mod_eq_of_lt hr2
  · rw [rowBytes_getD_pad s w line (by omega) hi1,
      getD_append_skip _ _ _ _ (by rw [hflen]; omega),
      replicate_getD_zero]

/-- C5: after the 54 header bytes the encoder emits the image rows bottom
row first, each row being the pixels left to right as blue, green, red
bytes followed by `stride - 3*width` zero padding bytes. -/
theorem c5_row_layout (img : Image) (hwf : img.WellFormed) :
    (SaveBMP img).drop 54 =
      ((List.range img.height).reverse.map fun y =>
        ((img.rows.getD y []).map fun p => [p.b, p.g, p.r]).flatten ++
          List.replicate (GetBMPStride img.width - 3 * img.width) 0).flatten := by
  unfold SaveBMP
  rw [show (54 : Nat) = (bmpHeaders img.width img.height).length from
    (length_bmpHeaders _ _).symm]
  rw [List.drop_left]
  congr 1
  apply List.map_congr_left
  intro y hy
  obtain ⟨hrows, hrow⟩ := hwf
  have hyh : y < img.height := by
    rw [List.mem_reverse, List.mem_range] at hy
    exact hy
  have hmem : img.rows.getD y [] ∈ img.rows := getD_mem _ _ (by omega)
  obtain ⟨hrlen, hvalid⟩ := hrow _ hmem
  exact rowBytes_flatten _ _ _ hrlen hvalid (three_mul_le_stride _)

/-- C5 witness: the row layout evaluated on a 1×2 image. -/
theorem c5_row_layout_witness :
    (SaveBMP ⟨1, 2, [[⟨10, 20, 30⟩], [⟨40, 50, 60⟩]]⟩).drop 54 =
      ((List.range (⟨1, 2, [[⟨10, 20, 30⟩], [⟨40, 50, 60⟩]]⟩ : Image).height).reverse.map
        fun y =>
          (((⟨1, 2, [[⟨10, 20, 30⟩], [⟨40, 50, 60⟩]]⟩ : Image).rows.getD y []).map
            fun p => [p.b, p.g, p.r]).flatten ++
            List.replicate (GetBMPStride (⟨1, 2, [[⟨10, 20, 30⟩], [⟨40, 50, 60⟩]]⟩ :
              Image).width - 3 * (⟨1, 2, [[⟨10, 20, 30⟩], [⟨40, 50, 60⟩]]⟩ :
              Image).width) 0).flatten :=
  c5_row_layout _ (by decide)

/-! ### Independence of the decoder from the reserved field -/

theorem byteAt_oob (l : List Nat) {i : Nat} (h : l.length ≤ i) : byteAt l i = 0 :=
  List.getD_eq_default _ _ h

theorem readRow_congr {bs1 bs2 : List Nat} (hlen : bs1.length = bs2.length)
    (hag : ∀ i, 10 ≤ i → byteAt bs1 i = byteAt bs2 i) {pos : Nat} (hpos : 10 ≤ pos)
    (s : Nat) : readRow bs1 pos s = readRow bs2 pos s := by
  unfold readRow
  rw [hlen]
  split
  · congr 1
    apply List.map_congr_left
    intro j _
    exact hag _ (by omega)
  · rfl

theorem readRows_congr {bs1 bs2 : List Nat} (hlen : bs1.length = bs2.length)
    (hag : ∀ i, 10 ≤ i → byteAt bs1 i = byteAt bs2 i) (s : Nat) :
    ∀ (n pos : Nat), 10 ≤ pos → readRows bs1 pos s n = readRows bs2 pos s n := by
  intro n
  induction n with
  | zero => intro pos _; rfl
  | succ n ih =>
    intro pos hpos
    unfold readRows
    rw [readRow_congr hlen hag hpos s]
    cases readRow bs2 pos s with
    | none => rfl
    | some row => rw [ih (pos + s) (by omega)]

/-- C8: the encoder always writes zeros into the reserved bytes 6..9, and
the decoder's result does not depend on them: two equal-length sources
that agree outside bytes 6..9 decode identically. -/
theorem c8_reserved_field :
    (∀ img : Image, byteAt (SaveBMP img) 6 = 0 ∧ byteAt (SaveBMP img) 7 = 0 ∧
        byteAt (SaveBMP img) 8 = 0 ∧ byteAt (SaveBMP img) 9 = 0) ∧
      ∀ bs1 bs2 : List Nat, bs1.length = bs2.length →
        (∀ i, i < bs1.length → i < 6 ∨ 10 ≤ i → byteAt bs1 i = byteAt bs2 i) →
        LoadBMP bs1 = LoadBMP bs2 := by
  constructor
  · intro img
    exact bytes_6_to_9_headers img.width img.height _
  · intro bs1 bs2 hlen hag
    have haf : ∀ i, i < 6 ∨ 10 ≤ i → byteAt bs1 i = byteAt bs2 i := by
      intro i hi
      by_cases hil : i < bs1.length
      · exact hag i hil hi
      · rw [byteAt_oob _ (by omega), byteAt_oob _ (by omega)]
    have h16a : readU16 bs1 0 = readU16 bs2 0 := by
      unfold readU16
      rw [haf 0 (by omega), haf 1 (by omega)]
    have h32 : ∀ off, 10 ≤ off → readU32 bs1 off = readU32 bs2 off := by
      intro off hoff
      unfold readU32
      rw [haf off (by omega), haf (off + 1) (by omega), haf (off + 2) (by omega),
        haf (off + 3) (by omega)]
    have h16 : ∀ off, 10 ≤ off → readU16 bs1 off = readU16 bs2 off := by
      intro off hoff
      unfold readU16
      rw [haf off (by omega), haf (off + 1) (by omega)]
    have hRR : ∀ s n, readRows bs1 54 s n = readRows bs2 54 s n := fun s n =>
      readRows_congr hlen (fun i hi => haf i (Or.inr hi)) s n 54 (by omega)
    unfold LoadBMP
    simp only [hlen, h16a, h32 10 (by omega), h32 14 (by omega), h32 18 (by omega),
      h32 22 (by omega), h16 26 (by omega), h16 28 (by omega), h32 30 (by omega), hRR]

/-- C8 witness: two concrete files differing only in byte 6 decode to the
same image. -/
theorem c8_reserved_field_witness :
    LoadBMP (bmpHeaders 2 1 ++ List.replicate 8 3) =
      LoadBMP ((bmpHeaders 2 1).set 6 99 ++ List.replicate 8 3) :=
  c8_reserved_field.2 _ _ (by decide) (by decide)

end ImgLib
